import Mathlib

/-
Verification of the go-backup-cleaner capacity-driven retention engine.

Shallow embedding conventions:
* Go `int64` / `int` values are modelled as `ℤ`, Go `uint64` values as `ℕ`.
  The capacity quantities involved never approach the 64-bit boundary in any
  statement below, so two's-complement wrap-around is not modelled.
* Go `float64` (only used for `UsedPercent` / `MaxUsagePercent`) is modelled
  exactly as `ℚ`; every concrete computation exercised below is exact in
  binary floating point as well.
* Go `time.Time` / `time.Duration` are modelled as `ℤ` nanosecond counts
  (Go's internal representation).  `time.Second` is 10^9 ns, `time.Hour`
  3.6·10^12 ns, and `time.Minute` 6·10^10 ns.
* Pointers used as optional values (`*int64` etc.) become `Option`.
-/

namespace GoBackupCleaner

/-- Constant for `time.Second` in nanoseconds. -/
def nsPerSecond : ℤ := 1000000000

/-- Constant for `time.Minute` in nanoseconds. -/
def nsPerMinute : ℤ := 60000000000

/-- Constant for `time.Hour` in nanoseconds. -/
def nsPerHour : ℤ := 3600000000000

/-- Embedding of `DiskUsage` from disk.go: total, free and used bytes plus the reported
used percentage. -/
structure DiskUsage where
  Total : ℕ
  Free : ℕ
  Used : ℕ
  UsedPercent : ℚ
deriving DecidableEq

/-- Embedding of `CleaningConfig` from config.go (the variant with `Concurrency` /
`MaxConcurrency`).  Callbacks and the `DiskInfo` provider are external
collaborators and are not part of the pure state modelled here. -/
structure CleaningConfig where
  MinFreeSpace : Option ℤ
  MaxUsagePercent : Option ℚ
  MaxSize : Option ℤ
  TimeWindow : ℤ
  RemoveEmptyDirs : Bool
  Concurrency : ℤ
  MaxConcurrency : ℤ
deriving DecidableEq

/-- Embedding of `calculateBlockSize` from disk.go: round a file size up to a whole
number of allocation units; a non-positive unit leaves the size unchanged. -/
def calculateBlockSize (fileSize : ℤ) (blockSize : ℤ) : ℤ :=
  if blockSize ≤ 0 then fileSize
  else ((fileSize + blockSize - 1) / blockSize) * blockSize

/-- The `targetUsage` computed inside `calculateTargetSize`
(cleaner.go): `uint64(float64(usage.Total) * (percent / 100))`. -/
def percentTargetUsage (usage : DiskUsage) (percent : ℚ) : ℕ :=
  (⌊(usage.Total : ℚ) * (percent / 100)⌋).toNat

/-- Embedding of `calculateTargetSize` from cleaner.go: the three constraint checks run in
sequence, each replacing the running `targetSize` when its candidate is
strictly larger. -/
def calculateTargetSize (usage : DiskUsage) (config : CleaningConfig) : ℤ :=
  let t0 : ℤ := 0
  let t1 : ℤ :=
    match config.MaxSize with
    | some maxSize =>
        if (usage.Used : ℤ) > maxSize then
          (if (usage.Used : ℤ) - maxSize > t0 then (usage.Used : ℤ) - maxSize else t0)
        else t0
    | none => t0
  let t2 : ℤ :=
    match config.MaxUsagePercent with
    | some percent =>
        if usage.UsedPercent > percent then
          (if usage.Used > percentTargetUsage usage percent then
            (if ((usage.Used - percentTargetUsage usage percent : ℕ) : ℤ) > t1 then
              ((usage.Used - percentTargetUsage usage percent : ℕ) : ℤ)
            else t1)
          else t1)
        else t1
    | none => t1
  let t3 : ℤ :=
    match config.MinFreeSpace with
    | some minFree =>
        if (usage.Free : ℤ) < minFree then
          (if minFree - (usage.Free : ℤ) > t2 then minFree - (usage.Free : ℤ) else t2)
        else t2
    | none => t2
  t3

/-- Spec-side candidate for the `MaxSize` constraint:
`used - MaxSize` when `used > MaxSize`, else 0. -/
def maxSizeCandidate (usage : DiskUsage) (config : CleaningConfig) : ℤ :=
  match config.MaxSize with
  | some maxSize => if (usage.Used : ℤ) > maxSize then (usage.Used : ℤ) - maxSize else 0
  | none => 0

/-- Spec-side candidate for the `MaxUsagePercent` constraint:
`used - floor(total × percent / 100)` when the reported used percentage
exceeds the cap and `used` exceeds the target, else 0. -/
def percentCandidate (usage : DiskUsage) (config : CleaningConfig) : ℤ :=
  match config.MaxUsagePercent with
  | some percent =>
      if usage.UsedPercent > percent then
        (if usage.Used > percentTargetUsage usage percent then
          ((usage.Used - percentTargetUsage usage percent : ℕ) : ℤ)
        else 0)
      else 0
  | none => 0

/-- Spec-side candidate for the `MinFreeSpace` constraint:
`MinFreeSpace - free` when `free < MinFreeSpace`, else 0. -/
def freeSpaceCandidate (usage : DiskUsage) (config : CleaningConfig) : ℤ :=
  match config.MinFreeSpace with
  | some minFree => if (usage.Free : ℤ) < minFree then minFree - (usage.Free : ℤ) else 0
  | none => 0

/-- The spec's formulation of the deletion budget: the maximum of the three
per-constraint candidates (each 0 when inactive or already satisfied). -/
def specTargetSize (usage : DiskUsage) (config : CleaningConfig) : ℤ :=
  max (maxSizeCandidate usage config)
    (max (percentCandidate usage config) (freeSpaceCandidate usage config))

/-- S6 usage snapshot: total = 10 GiB, used = 8 GiB, free = 2 GiB, 80 %. -/
def s6Usage : DiskUsage :=
  { Total := 10737418240, Free := 2147483648, Used := 8589934592, UsedPercent := 80 }

/-- S6 constraint set: MaxSize = 6 GiB, MaxUsagePercent = 50,
MinFreeSpace = 3 GiB. -/
def s6Config : CleaningConfig :=
  { MinFreeSpace := some 3221225472, MaxUsagePercent := some 50,
    MaxSize := some 6442450944, TimeWindow := 0, RemoveEmptyDirs := true,
    Concurrency := 0, MaxConcurrency := 0 }

/-- Embedding of `setDefaults` from config.go: a zero `TimeWindow` becomes 5 minutes, a
zero `Concurrency` becomes the hardware parallelism (`numCPU`), a zero
`MaxConcurrency` becomes 4.  The `DiskInfo` default is an external
collaborator and is not modelled. -/
def setDefaults (numCPU : ℤ) (c : CleaningConfig) : CleaningConfig :=
  { c with
    TimeWindow := if c.TimeWindow = 0 then 5 * nsPerMinute else c.TimeWindow,
    Concurrency := if c.Concurrency = 0 then numCPU else c.Concurrency,
    MaxConcurrency := if c.MaxConcurrency = 0 then 4 else c.MaxConcurrency }

/-- Embedding of `ActualWorkerCount` from config.go: `Concurrency` capped at
`MaxConcurrency`. -/
def ActualWorkerCount (c : CleaningConfig) : ℤ :=
  if c.Concurrency > c.MaxConcurrency then c.MaxConcurrency else c.Concurrency

/-- Embedding of `CleaningReport` from the report definition file; durations are modelled
as abstract nanosecond counts. -/
structure CleaningReport where
  DeletedFiles : ℤ
  DeletedSize : ℤ
  DeletedBlockSize : ℤ
  DeletedDirs : ℤ
  ScanDuration : ℤ
  DeleteDuration : ℤ
  TotalDuration : ℤ
  ScannedFiles : ℤ
  TimeThreshold : ℤ
  BlockSize : ℤ
deriving DecidableEq

/-- How `CleanBackup` (cleaner.go lines 26–55) resolves the disk-usage
snapshot and the deletion budget before any scanning happens. -/
inductive PlanOutcome where
  | fail
  | earlyReturn (report : CleaningReport)
  | proceedAbsolute
  | proceedBudget (targetSize : ℤ)
deriving DecidableEq

/-- The report built by the early `targetSize ≤ 0` return:
`CleaningReport{TotalDuration: time.Since(startTime)}`, Go zero values in
every other field. -/
def emptyBudgetReport (totalDuration : ℤ) : CleaningReport :=
  { DeletedFiles := 0, DeletedSize := 0, DeletedBlockSize := 0,
    DeletedDirs := 0, ScanDuration := 0, DeleteDuration := 0,
    TotalDuration := totalDuration, ScannedFiles := 0, TimeThreshold := 0,
    BlockSize := 0 }

/-- The head of `CleanBackup` after validation: `usageResult = none` models
`GetDiskUsage` failure; on failure the call errors out iff `MaxSize` is nil,
otherwise it uses the `targetSize = -1` absolute-mode sentinel; with a
snapshot, a non-positive budget returns the empty report immediately. -/
def cleanBackupPlan (usageResult : Option DiskUsage) (config : CleaningConfig)
    (elapsed : ℤ) : PlanOutcome :=
  match usageResult with
  | none =>
      if config.MaxSize = none then PlanOutcome.fail
      else PlanOutcome.proceedAbsolute
  | some usage =>
      if calculateTargetSize usage config ≤ 0 then
        PlanOutcome.earlyReturn (emptyBudgetReport elapsed)
      else PlanOutcome.proceedBudget (calculateTargetSize usage config)

/-- C3 counterexample configuration: MaxSize = 2 MiB and
MinFreeSpace = 3 GiB both active. -/
def c3Config : CleaningConfig :=
  { MinFreeSpace := some 3221225472, MaxUsagePercent := none,
    MaxSize := some 2097152, TimeWindow := 0, RemoveEmptyDirs := true,
    Concurrency := 0, MaxConcurrency := 0 }

/-- A DiskUsage snapshot satisfies every active constraint: used within
`MaxSize`, reported percentage within `MaxUsagePercent`, free space at least
`MinFreeSpace`. -/
def constraintsSatisfied (usage : DiskUsage) (config : CleaningConfig) : Prop :=
  (∀ m, config.MaxSize = some m → (usage.Used : ℤ) ≤ m) ∧
  (∀ p, config.MaxUsagePercent = some p → usage.UsedPercent ≤ p) ∧
  (∀ f, config.MinFreeSpace = some f → f ≤ (usage.Free : ℤ))

/-- C6 counterexample usage snapshot: the stored `UsedPercent` (80) is
inconsistent with `Used = 0` out of `Total = 100`. -/
def c6Usage : DiskUsage :=
  { Total := 100, Free := 100, Used := 0, UsedPercent := 80 }

/-- C6 counterexample configuration: only MaxUsagePercent = 50 active. -/
def c6Config : CleaningConfig :=
  { MinFreeSpace := none, MaxUsagePercent := some 50, MaxSize := none,
    TimeWindow := 0, RemoveEmptyDirs := true, Concurrency := 0,
    MaxConcurrency := 0 }

/-- A node of the backup tree as seen through `os.Lstat` (link-preserving
stat): a regular file with its modification time and size, a symbolic link,
another kind of entry (socket, device, FIFO), or a directory with its
entries. -/
inductive FSEntry where
  | file (name : String) (modTime : ℤ) (size : ℤ)
  | symlink (name : String)
  | other (name : String)
  | dir (name : String) (entries : List FSEntry)

mutual
/-- All regular-file records `(name, modTime, size)` reachable from an
entry; symlinks and other kinds contribute nothing, directories recurse —
the traversal order of `deleter.processPath` / `scanner.processPath`. -/
def filesOf : FSEntry → List (String × ℤ × ℤ)
  | .file name m s => [(name, m, s)]
  | .symlink _ => []
  | .other _ => []
  | .dir _ es => filesOfList es

def filesOfList : List FSEntry → List (String × ℤ × ℤ)
  | [] => []
  | e :: rest => filesOf e ++ filesOfList rest
end

mutual
/-- The files removed by `deleter.processPath` (part_007 lines 118–181)
below an entry: symlinks are skipped, directories are descended into, and a
regular file is removed exactly when `info.ModTime().Before(threshold)`. -/
def deleterDeleted (threshold : ℤ) : FSEntry → List (String × ℤ × ℤ)
  | .file name m s => if m < threshold then [(name, m, s)] else []
  | .symlink _ => []
  | .other _ => []
  | .dir _ es => deleterDeletedList threshold es

def deleterDeletedList (threshold : ℤ) : List FSEntry → List (String × ℤ × ℤ)
  | [] => []
  | e :: rest => deleterDeleted threshold e ++ deleterDeletedList threshold rest
end

/-- C1 witness tree: a directory holding an old file, a symlink, a nested
directory with a new file, and a socket-like entry. -/
def c1Tree : FSEntry :=
  .dir "root"
    [.file "old.txt" 5 100, .symlink "link", .dir "sub" [.file "new.txt" 50 200],
      .other "sock"]

/-- Embedding of `fileInfo` from the scanner (part_000): path, logical size, block size
and modification time. -/
structure fileInfo where
  path : String
  size : ℤ
  blockSize : ℤ
  modTime : ℤ
deriving DecidableEq

/-- Embedding of `timeSlot` from the scanner (part_000): a slot time with its files and
running totals. -/
structure timeSlot where
  time : ℤ
  files : List fileInfo
  totalSize : ℤ
  totalBlockSize : ℤ
deriving DecidableEq

/-- Embedding of Go's `Time.Truncate`: round down to a multiple of the duration (no-op
for non-positive durations). -/
def goTruncate (t w : ℤ) : ℤ :=
  if w ≤ 0 then t else t - t % w

/-- The loop of `calculateThreshold` (cleaner.go lines 217–227):
accumulate slot block sizes oldest-first; on reaching the target return the
slot's time plus one second together with the counts so far; if the loop
ends, the default threshold stands and the totals cover every slot. -/
def thresholdLoop (targetSize dflt : ℤ) :
    List timeSlot → ℤ → ℕ → ℤ × ℕ × ℤ
  | [], acc, files => (dflt, files, acc)
  | s :: rest, acc, files =>
      let acc' := acc + s.totalBlockSize
      let files' := files + s.files.length
      if acc' ≥ targetSize then (s.time + nsPerSecond, files', acc')
      else thresholdLoop targetSize dflt rest acc' files'

/-- Embedding of `calculateThreshold` from cleaner.go: empty slots give the zero time;
otherwise the default threshold is the last slot's time plus one second. -/
def calculateThreshold (slots : List timeSlot) (targetSize : ℤ) : ℤ × ℕ × ℤ :=
  match slots.getLast? with
  | none => (0, 0, 0)
  | some last => thresholdLoop targetSize (last.time + nsPerSecond) slots 0 0

/-- The loop of `calculateThresholdForMaxSize` (cleaner.go lines 263–277):
delete whole slots oldest-first; once the remaining size is within the cap
return the slot's time plus one hour; `none` in the first component records
fall-through. -/
def maxSizeLoop (maxSize : ℤ) :
    List timeSlot → ℤ → ℕ → ℤ → Option ℤ × ℕ × ℤ
  | [], _, dFiles, dSize => (none, dFiles, dSize)
  | s :: rest, remaining, dFiles, dSize =>
      let remaining' := remaining - s.totalBlockSize
      let dFiles' := dFiles + s.files.length
      let dSize' := dSize + s.totalBlockSize
      if remaining' ≤ maxSize then (some (s.time + nsPerHour), dFiles', dSize')
      else maxSizeLoop maxSize rest remaining' dFiles' dSize'

/-- Embedding of `calculateThresholdForMaxSize` from cleaner.go: if the summed block
size fits the cap nothing is deleted; otherwise whole slots are deleted
oldest-first and the threshold is the last deleted slot's time plus one
hour; the (normally unreachable) fall-through uses `now` plus one hour. -/
def calculateThresholdForMaxSize (now : ℤ) (slots : List timeSlot)
    (maxSize : ℤ) : ℤ × ℕ × ℤ :=
  let totalSize := (slots.map timeSlot.totalBlockSize).sum
  if totalSize ≤ maxSize then (0, 0, 0)
  else
    match maxSizeLoop maxSize slots totalSize 0 0 with
    | (some t, dFiles, dSize) => (t, dFiles, dSize)
    | (none, dFiles, dSize) =>
        if slots.length > 0 then (now + nsPerHour, dFiles, dSize) else (0, 0, 0)

/-- C4 counterexample record: a file sitting exactly on the oldest slot
boundary. -/
def c4FileOld : fileInfo :=
  { path := "old", size := 10, blockSize := 10, modTime := 0 }

/-- C4 counterexample record: a file in the newest slot. -/
def c4FileNew : fileInfo :=
  { path := "new", size := 10, blockSize := 10, modTime := 300000000005 }

/-- C4 counterexample oldest slot. -/
def c4SlotOld : timeSlot :=
  { time := 0, files := [c4FileOld], totalSize := 10, totalBlockSize := 10 }

/-- C4 counterexample newest slot (5-minute window later). -/
def c4SlotNew : timeSlot :=
  { time := 300000000000, files := [c4FileNew], totalSize := 10,
    totalBlockSize := 10 }

/-- C4 counterexample slots (5-minute windows, two slots, 10 block bytes
each). -/
def c4Slots : List timeSlot := [c4SlotOld, c4SlotNew]

/-- The record held by the third C5 slot. -/
def c5FileThird : fileInfo :=
  { path := "third", size := 10, blockSize := 10, modTime := 600000000001 }

/-- A third slot (two 5-minute windows after the first) used by the C5
witness. -/
def c5SlotThird : timeSlot :=
  { time := 600000000000, files := [c5FileThird], totalSize := 10,
    totalBlockSize := 10 }

/-- C5 counterexample configuration with a 5-minute TimeWindow. -/
def c5Config : CleaningConfig :=
  { MinFreeSpace := none, MaxUsagePercent := none, MaxSize := some 5,
    TimeWindow := 300000000000, RemoveEmptyDirs := true, Concurrency := 0,
    MaxConcurrency := 0 }

/-- Embedding of `scanner.addFile` (part_000 lines 154–173): truncate the record's
modification time to the window, append the record to the matching slot
(creating it if absent) and bump the running totals.  The Go map is
modelled as an association list in insertion order; `getTimeSlots` sorts
it, so the map's unspecified iteration order is immaterial. -/
def addFile (w : ℤ) (slots : List timeSlot) (fi : fileInfo) : List timeSlot :=
  let slotTime := goTruncate fi.modTime w
  if slots.any (fun s => s.time = slotTime) then
    slots.map (fun s =>
      if s.time = slotTime then
        { s with
            files := s.files ++ [fi],
            totalSize := s.totalSize + fi.size,
            totalBlockSize := s.totalBlockSize + fi.blockSize }
      else s)
  else
    slots ++ [timeSlot.mk slotTime [fi] fi.size fi.blockSize]

/-- The scanner's histogram after adding each record in turn to an empty
slot map. -/
def buildHistogram (w : ℤ) (fis : List fileInfo) : List timeSlot :=
  fis.foldl (addFile w) []

/-- One inner pass of the bubble sort in `sortTimeSlots` (part_000 lines
203–213): adjacent slots are swapped when the earlier one's time is
`After` the later one's. -/
def bubblePass : List timeSlot → List timeSlot
  | [] => []
  | [a] => [a]
  | a :: b :: rest =>
      if b.time < a.time then b :: bubblePass (a :: rest)
      else a :: bubblePass (b :: rest)

/-- Embedding of `sortTimeSlots`: `n - 1` bubble passes.  The source's inner loop stops
at index `n - i - 1`; the tail it skips is already in final position after
`i` passes, so running each pass over the whole list yields the same
result. -/
def sortTimeSlots (slots : List timeSlot) : List timeSlot :=
  bubblePass^[slots.length - 1] slots

/-- Embedding of `scanner.getTimeSlots`: the histogram's slots sorted oldest first. -/
def getTimeSlots (w : ℤ) (fis : List fileInfo) : List timeSlot :=
  sortTimeSlots (buildHistogram w fis)

/-- C7 witness records: two files whose modification times fall in two
different 5-minute windows, inserted newest-first. -/
def c7Files : List fileInfo :=
  [{ path := "b", size := 7, blockSize := 8, modTime := 300000000004 },
    { path := "a", size := 3, blockSize := 4, modTime := 5 }]

lemma targetSize_eq_spec (usage : DiskUsage) (config : CleaningConfig) :
    calculateTargetSize usage config = specTargetSize usage config := by
  unfold calculateTargetSize specTargetSize maxSizeCandidate percentCandidate
    freeSpaceCandidate
  rcases config.MaxSize with _ | m <;>
    rcases config.MaxUsagePercent with _ | p <;>
    rcases config.MinFreeSpace with _ | f <;>
    simp only [] <;>
    first
    | (split_ifs <;> omega)
    | omega

lemma specTargetSize_nonneg (usage : DiskUsage) (config : CleaningConfig) :
    0 ≤ specTargetSize usage config := by
  unfold specTargetSize maxSizeCandidate
  rcases config.MaxSize with _ | m
  · exact le_max_of_le_left le_rfl
  · simp only []
    split_ifs <;> [exact le_max_of_le_left (by omega); exact le_max_of_le_left le_rfl]

/-- C2: `calculateTargetSize` is the maximum of one candidate per active
constraint (each candidate 0 when its guard fails), and on the S6 snapshot
(total 10 GiB, used 8 GiB, free 2 GiB, 80 %) with MaxSize = 6 GiB,
MaxUsagePercent = 50, MinFreeSpace = 3 GiB the candidates are 2 GiB,
3 GiB and 1 GiB and the budget is 3 GiB. -/
theorem calculateTargetSize_is_max_of_candidates :
    (∀ (usage : DiskUsage) (config : CleaningConfig),
      calculateTargetSize usage config =
        max (maxSizeCandidate usage config)
          (max (percentCandidate usage config) (freeSpaceCandidate usage config))) ∧
    maxSizeCandidate s6Usage s6Config = 2147483648 ∧
    percentCandidate s6Usage s6Config = 3221225472 ∧
    freeSpaceCandidate s6Usage s6Config = 1073741824 ∧
    calculateTargetSize s6Usage s6Config = 3221225472 := by
  have htu : percentTargetUsage s6Usage 50 = 5368709120 := by
    simp only [percentTargetUsage, s6Usage]
    norm_num
    rfl
  have h2 : percentCandidate s6Usage s6Config = 3221225472 := by
    simp only [percentCandidate, s6Config, htu]
    norm_num [s6Usage]
  refine ⟨fun usage config => targetSize_eq_spec usage config, by decide, h2, by decide, ?_⟩
  rw [targetSize_eq_spec]
  unfold specTargetSize
  rw [h2]
  decide

/-- C9: for `n ≥ 0` and `u > 0`, `calculateBlockSize n u` is a multiple of
`u`, is at least `n`, and exceeds `n` by less than `u`; `calculateBlockSize
0 u = 0`; and for `u ≤ 0` the size is returned unchanged. -/
theorem calculateBlockSize_props (n u : ℤ) :
    (0 ≤ n → 0 < u →
      u ∣ calculateBlockSize n u ∧ n ≤ calculateBlockSize n u ∧
        calculateBlockSize n u - n < u) ∧
    (0 < u → calculateBlockSize 0 u = 0) ∧
    (u ≤ 0 → calculateBlockSize n u = n) := by
  refine ⟨fun _ hu => ?_, fun hu => ?_, fun hu => ?_⟩
  · unfold calculateBlockSize
    rw [if_neg (by omega)]
    have hmod := Int.emod_nonneg (n + u - 1) (by omega : u ≠ 0)
    have hmod2 := Int.emod_lt_of_pos (n + u - 1) hu
    have hdm := Int.ediv_add_emod (n + u - 1) u
    refine ⟨dvd_mul_left u _, ?_, ?_⟩ <;> nlinarith [hmod, hmod2, hdm]
  · unfold calculateBlockSize
    rw [if_neg (by omega)]
    have h0 : (0 + u - 1) / u = 0 :=
      Int.ediv_eq_zero_of_lt (by omega) (by omega)
    rw [h0, zero_mul]
  · unfold calculateBlockSize
    rw [if_pos hu]

/-- Witness for `calculateBlockSize_props` at n = 5000, u = 4096. -/
theorem calculateBlockSize_props_witness :
    ((4096 : ℤ) ∣ calculateBlockSize 5000 4096 ∧
      (5000 : ℤ) ≤ calculateBlockSize 5000 4096 ∧
      calculateBlockSize 5000 4096 - 5000 < 4096) ∧
    calculateBlockSize 0 4096 = 0 ∧
    calculateBlockSize 5000 (-1) = 5000 :=
  ⟨(calculateBlockSize_props 5000 4096).1 (by decide) (by decide),
    (calculateBlockSize_props 0 4096).2.1 (by decide),
    (calculateBlockSize_props 5000 (-1)).2.2 (by decide)⟩

/-- C10: after `setDefaults` (with hardware parallelism ≥ 1) a configuration
with non-negative concurrency settings yields
`ActualWorkerCount = min Concurrency MaxConcurrency` of the defaulted
values, and that count is at least 1, so the zero-worker case is
unreachable through `CleanBackup`. -/
theorem actualWorkerCount_after_defaults (numCPU : ℤ) (c : CleaningConfig)
    (hcpu : 1 ≤ numCPU) (hc : 0 ≤ c.Concurrency) (hm : 0 ≤ c.MaxConcurrency) :
    ActualWorkerCount (setDefaults numCPU c) =
      min (setDefaults numCPU c).Concurrency (setDefaults numCPU c).MaxConcurrency ∧
    1 ≤ ActualWorkerCount (setDefaults numCPU c) := by
  dsimp only [ActualWorkerCount, setDefaults]
  split_ifs <;> constructor <;> omega

/-- Witness for `actualWorkerCount_after_defaults`: 8 CPUs and an
all-default configuration. -/
theorem actualWorkerCount_after_defaults_witness :
    ActualWorkerCount (setDefaults 8 s6Config) =
      min (setDefaults 8 s6Config).Concurrency
        (setDefaults 8 s6Config).MaxConcurrency ∧
    1 ≤ ActualWorkerCount (setDefaults 8 s6Config) :=
  actualWorkerCount_after_defaults 8 s6Config (by decide) (by decide) (by decide)

/-- C3 counterexample: the free-space constraint is active and no usage
snapshot is available, yet `CleanBackup` does not fail — because `MaxSize`
is also set it silently proceeds in absolute mode. -/
theorem cleanBackupPlan_c3_counterexample :
    c3Config.MinFreeSpace ≠ none ∧
    cleanBackupPlan none c3Config 0 = PlanOutcome.proceedAbsolute ∧
    cleanBackupPlan none c3Config 0 ≠ PlanOutcome.fail := by decide

/-- C3 amended: when `GetDiskUsage` fails, `CleanBackup` fails iff `MaxSize`
is nil (regardless of which other constraints are active); whenever
`MaxSize` is set the absolute-mode fallback applies, even if a percentage or
free-space constraint is also active. -/
theorem cleanBackupPlan_diskUsageFailure (config : CleaningConfig) (elapsed : ℤ) :
    (cleanBackupPlan none config elapsed = PlanOutcome.fail ↔
      config.MaxSize = none) ∧
    (config.MaxSize ≠ none →
      cleanBackupPlan none config elapsed = PlanOutcome.proceedAbsolute) := by
  unfold cleanBackupPlan
  constructor
  · constructor
    · intro h
      by_contra hnone
      rw [if_neg hnone] at h
      exact PlanOutcome.noConfusion h
    · intro h
      rw [if_pos h]
  · intro h
    rw [if_neg h]

/-- Witness for `cleanBackupPlan_diskUsageFailure` at the C3 configuration. -/
theorem cleanBackupPlan_diskUsageFailure_witness :
    ((cleanBackupPlan none c3Config 0 = PlanOutcome.fail ↔
        c3Config.MaxSize = none) ∧
      (c3Config.MaxSize ≠ none →
        cleanBackupPlan none c3Config 0 = PlanOutcome.proceedAbsolute)) ∧
    c3Config.MaxSize ≠ none :=
  ⟨cleanBackupPlan_diskUsageFailure c3Config 0, by decide⟩

/-- C8: with a usage snapshot available and a non-positive budget,
`CleanBackup` returns the empty report immediately (before the scan, delete
and reap phases), and every field of that report except `TotalDuration` is
zero. -/
theorem cleanBackupPlan_budgetZero_earlyReturn (usage : DiskUsage)
    (config : CleaningConfig) (elapsed : ℤ)
    (h : calculateTargetSize usage config ≤ 0) :
    cleanBackupPlan (some usage) config elapsed =
      PlanOutcome.earlyReturn (emptyBudgetReport elapsed) ∧
    (emptyBudgetReport elapsed).DeletedFiles = 0 ∧
    (emptyBudgetReport elapsed).DeletedSize = 0 ∧
    (emptyBudgetReport elapsed).DeletedBlockSize = 0 ∧
    (emptyBudgetReport elapsed).DeletedDirs = 0 ∧
    (emptyBudgetReport elapsed).ScanDuration = 0 ∧
    (emptyBudgetReport elapsed).DeleteDuration = 0 ∧
    (emptyBudgetReport elapsed).ScannedFiles = 0 ∧
    (emptyBudgetReport elapsed).TimeThreshold = 0 ∧
    (emptyBudgetReport elapsed).BlockSize = 0 := by
  refine ⟨?_, rfl, rfl, rfl, rfl, rfl, rfl, rfl, rfl, rfl⟩
  simp only [cleanBackupPlan]
  rw [if_pos h]

/-- C8 witness: a snapshot already satisfying all three S6 constraints. -/
theorem cleanBackupPlan_budgetZero_earlyReturn_witness :
    cleanBackupPlan
        (some { Total := 10737418240, Free := 6442450944, Used := 4294967296,
                UsedPercent := 40 })
        s6Config 7 =
      PlanOutcome.earlyReturn (emptyBudgetReport 7) ∧
    (emptyBudgetReport 7).DeletedFiles = 0 ∧
    (emptyBudgetReport 7).DeletedSize = 0 ∧
    (emptyBudgetReport 7).DeletedBlockSize = 0 ∧
    (emptyBudgetReport 7).DeletedDirs = 0 ∧
    (emptyBudgetReport 7).ScanDuration = 0 ∧
    (emptyBudgetReport 7).DeleteDuration = 0 ∧
    (emptyBudgetReport 7).ScannedFiles = 0 ∧
    (emptyBudgetReport 7).TimeThreshold = 0 ∧
    (emptyBudgetReport 7).BlockSize = 0 :=
  cleanBackupPlan_budgetZero_earlyReturn
    { Total := 10737418240, Free := 6442450944, Used := 4294967296,
      UsedPercent := 40 } s6Config 7 (by decide)

lemma maxSizeCandidate_nonneg (usage : DiskUsage) (config : CleaningConfig) :
    0 ≤ maxSizeCandidate usage config := by
  unfold maxSizeCandidate
  rcases config.MaxSize with _ | m
  · exact le_rfl
  · simp only []
    split_ifs <;> omega

lemma percentCandidate_nonneg (usage : DiskUsage) (config : CleaningConfig) :
    0 ≤ percentCandidate usage config := by
  unfold percentCandidate
  rcases config.MaxUsagePercent with _ | p
  · exact le_rfl
  · simp only []
    split_ifs <;> omega

lemma freeSpaceCandidate_nonneg (usage : DiskUsage) (config : CleaningConfig) :
    0 ≤ freeSpaceCandidate usage config := by
  unfold freeSpaceCandidate
  rcases config.MinFreeSpace with _ | f
  · exact le_rfl
  · simp only []
    split_ifs <;> omega

lemma maxSizeCandidate_eq_zero_iff (usage : DiskUsage) (config : CleaningConfig) :
    maxSizeCandidate usage config = 0 ↔
      ∀ m, config.MaxSize = some m → (usage.Used : ℤ) ≤ m := by
  unfold maxSizeCandidate
  rcases hM : config.MaxSize with _ | m
  · simp
  · simp only [Option.some.injEq]
    constructor
    · intro h0 m' hm'
      subst hm'
      split_ifs at h0 <;> omega
    · intro hall
      have := hall m rfl
      split_ifs <;> omega

lemma freeSpaceCandidate_eq_zero_iff (usage : DiskUsage) (config : CleaningConfig) :
    freeSpaceCandidate usage config = 0 ↔
      ∀ f, config.MinFreeSpace = some f → f ≤ (usage.Free : ℤ) := by
  unfold freeSpaceCandidate
  rcases hF : config.MinFreeSpace with _ | f
  · simp
  · simp only [Option.some.injEq]
    constructor
    · intro h0 f' hf'
      subst hf'
      split_ifs at h0 <;> omega
    · intro hall
      have := hall f rfl
      split_ifs <;> omega

/-- With a consistent snapshot (`UsedPercent` really is `used/total·100` and
`total > 0`) and a validated non-negative percentage cap, exceeding the cap
forces `used` above the integer target computed by the code. -/
lemma used_gt_target_of_percent_exceeded (usage : DiskUsage) (p : ℚ)
    (htotal : 0 < usage.Total)
    (hcons : usage.UsedPercent = (usage.Used : ℚ) / (usage.Total : ℚ) * 100)
    (hp : 0 ≤ p) (hgt : usage.UsedPercent > p) :
    usage.Used > percentTargetUsage usage p := by
  have htQ : (0 : ℚ) < (usage.Total : ℚ) := by exact_mod_cast htotal
  have h1 : p * (usage.Total : ℚ) < (usage.Used : ℚ) * 100 := by
    rw [hcons] at hgt
    have := (lt_div_iff₀ htQ).mp (by
      have : p < (usage.Used : ℚ) * 100 / (usage.Total : ℚ) := by
        calc p < (usage.Used : ℚ) / (usage.Total : ℚ) * 100 := hgt
        _ = (usage.Used : ℚ) * 100 / (usage.Total : ℚ) := by ring
      exact this)
    exact this
  have h2 : (usage.Total : ℚ) * (p / 100) < (usage.Used : ℚ) := by
    rw [show (usage.Total : ℚ) * (p / 100) = p * (usage.Total : ℚ) / 100 by ring,
      div_lt_iff₀ (by norm_num : (0:ℚ) < 100)]
    linarith [h1]
  have h3 : ⌊(usage.Total : ℚ) * (p / 100)⌋ < (usage.Used : ℤ) := by
    rw [Int.floor_lt]
    exact_mod_cast h2
  have hused : 0 < usage.Used := by
    by_contra hz
    have h0 : usage.Used = 0 := by omega
    rw [h0] at hcons
    simp at hcons
    rw [hcons] at hgt
    exact absurd hgt (not_lt.mpr hp)
  unfold percentTargetUsage
  omega

lemma percentCandidate_eq_zero_iff (usage : DiskUsage) (config : CleaningConfig)
    (htotal : 0 < usage.Total)
    (hcons : usage.UsedPercent = (usage.Used : ℚ) / (usage.Total : ℚ) * 100)
    (hp : ∀ p, config.MaxUsagePercent = some p → 0 ≤ p) :
    percentCandidate usage config = 0 ↔
      ∀ p, config.MaxUsagePercent = some p → usage.UsedPercent ≤ p := by
  unfold percentCandidate
  rcases hP : config.MaxUsagePercent with _ | p
  · simp
  · simp only [Option.some.injEq]
    constructor
    · intro h0 p' hp'
      subst hp'
      by_contra hgt
      push_neg at hgt
      have hused := used_gt_target_of_percent_exceeded usage p htotal hcons
        (hp p hP) hgt
      rw [if_pos hgt, if_pos hused] at h0
      omega
    · intro hall
      have := hall p rfl
      rw [if_neg (not_lt.mpr this)]

/-- C6 amended: for every consistent DiskUsage snapshot (`total > 0`,
`UsedPercent = used/total·100`, as produced by every provider in the
repository) and every validated configuration (percentage cap ≥ 0) with at
least one active constraint, `calculateTargetSize` is non-negative and is
zero iff every active constraint is satisfied by the snapshot.  (On
inconsistent snapshots, where the stored `UsedPercent` disagrees with
`used/total`, the "iff" direction fails — see the counterexample.) -/
theorem targetSize_nonneg_and_zero_iff_satisfied (usage : DiskUsage)
    (config : CleaningConfig) (htotal : 0 < usage.Total)
    (hcons : usage.UsedPercent = (usage.Used : ℚ) / (usage.Total : ℚ) * 100)
    (hp : ∀ p, config.MaxUsagePercent = some p → 0 ≤ p)
    (hactive : config.MaxSize ≠ none ∨ config.MaxUsagePercent ≠ none ∨
      config.MinFreeSpace ≠ none) :
    0 ≤ calculateTargetSize usage config ∧
    (calculateTargetSize usage config = 0 ↔ constraintsSatisfied usage config) := by
  rw [targetSize_eq_spec]
  refine ⟨specTargetSize_nonneg usage config, ?_⟩
  have h1 := maxSizeCandidate_nonneg usage config
  have h2 := percentCandidate_nonneg usage config
  have h3 := freeSpaceCandidate_nonneg usage config
  have hsplit : specTargetSize usage config = 0 ↔
      maxSizeCandidate usage config = 0 ∧ percentCandidate usage config = 0 ∧
        freeSpaceCandidate usage config = 0 := by
    unfold specTargetSize
    omega
  rw [hsplit, maxSizeCandidate_eq_zero_iff,
    percentCandidate_eq_zero_iff usage config htotal hcons hp,
    freeSpaceCandidate_eq_zero_iff]
  exact Iff.rfl

/-- C6 witness: the S6 snapshot is consistent and violates its constraints,
so the budget is positive; a satisfied consistent snapshot gives budget 0. -/
theorem targetSize_nonneg_and_zero_iff_satisfied_witness :
    0 ≤ calculateTargetSize s6Usage s6Config ∧
    (calculateTargetSize s6Usage s6Config = 0 ↔
      constraintsSatisfied s6Usage s6Config) :=
  targetSize_nonneg_and_zero_iff_satisfied s6Usage s6Config (by decide)
    (by norm_num [s6Usage]) (by intro p hp; rw [s6Config] at hp; injection hp with e; rw [← e]; norm_num)
    (Or.inl (by decide))

/-- C6 counterexample: on an inconsistent snapshot (reported 80 % used but
`Used = 0`) with an active 50 % cap the budget is 0 even though the active
constraint is not satisfied, refuting the claim's "for every DiskUsage
input" iff. -/
theorem targetSize_zero_iff_counterexample :
    calculateTargetSize c6Usage c6Config = 0 ∧
    c6Config.MaxUsagePercent = some 50 ∧
    ¬ c6Usage.UsedPercent ≤ 50 ∧
    ¬ constraintsSatisfied c6Usage c6Config := by
  have htu : percentTargetUsage c6Usage 50 = 50 := by
    simp only [percentTargetUsage, c6Usage]
    norm_num
    rfl
  have hbudget : calculateTargetSize c6Usage c6Config = 0 := by
    simp only [calculateTargetSize, c6Config, htu]
    norm_num [c6Usage]
  refine ⟨hbudget, rfl, by norm_num [c6Usage], ?_⟩
  intro h
  have := h.2.1 50 rfl
  norm_num [c6Usage] at this

mutual
lemma deleterDeleted_eq_filter (T : ℤ) : ∀ e : FSEntry,
    deleterDeleted T e = (filesOf e).filter (fun r => decide (r.2.1 < T))
  | .file name m s => by
    simp only [deleterDeleted, filesOf, List.filter]
    split_ifs with h
    · simp [h]
    · simp [h]
  | .symlink _ => by simp [deleterDeleted, filesOf]
  | .other _ => by simp [deleterDeleted, filesOf]
  | .dir _ es => by
    simp only [deleterDeleted, filesOf]
    exact deleterDeletedList_eq_filter T es

lemma deleterDeletedList_eq_filter (T : ℤ) : ∀ l : List FSEntry,
    deleterDeletedList T l = (filesOfList l).filter (fun r => decide (r.2.1 < T))
  | [] => by simp [deleterDeletedList, filesOfList]
  | e :: rest => by
    simp only [deleterDeletedList, filesOfList, List.filter_append]
    rw [deleterDeleted_eq_filter T e, deleterDeletedList_eq_filter T rest]
end

/-- C1: in the delete phase with threshold `T`, a regular-file record found
by the link-preserving walk is removed iff its modification time is
strictly before `T`; every regular file with `modTime ≥ T` is left
untouched (symlinks and directories are never removed by this phase). -/
theorem deleter_removes_iff_before_threshold (T : ℤ) (tree : FSEntry)
    (r : String × ℤ × ℤ) (hr : r ∈ filesOf tree) :
    r ∈ deleterDeleted T tree ↔ r.2.1 < T := by
  rw [deleterDeleted_eq_filter T tree, List.mem_filter]
  simp [hr]

/-- Witness for `deleter_removes_iff_before_threshold` on `c1Tree` with
threshold 10: the old file is removed, the new one survives. -/
theorem deleter_removes_iff_before_threshold_witness :
    (("old.txt", (5 : ℤ), (100 : ℤ)) ∈ deleterDeleted 10 c1Tree ↔ (5 : ℤ) < 10) ∧
    (("new.txt", (50 : ℤ), (200 : ℤ)) ∈ deleterDeleted 10 c1Tree ↔ (50 : ℤ) < 10) :=
  ⟨deleter_removes_iff_before_threshold 10 c1Tree _
      (by simp [c1Tree, filesOf, filesOfList]),
    deleter_removes_iff_before_threshold 10 c1Tree _
      (by simp [c1Tree, filesOf, filesOfList])⟩

lemma thresholdLoop_no_break (B dflt : ℤ) :
    ∀ (slots : List timeSlot) (acc : ℤ) (files : ℕ),
      (∀ s ∈ slots, 0 ≤ s.totalBlockSize) →
      acc + (slots.map timeSlot.totalBlockSize).sum < B →
      thresholdLoop B dflt slots acc files =
        (dflt, files + (slots.map (fun s => s.files.length)).sum,
          acc + (slots.map timeSlot.totalBlockSize).sum) := by
  intro slots
  induction slots with
  | nil => intro acc files _ _; simp [thresholdLoop]
  | cons s rest ih =>
    intro acc files hbs hlt
    have hrest : ∀ x ∈ rest, 0 ≤ x.totalBlockSize := fun x hx =>
      hbs x (List.mem_cons_of_mem _ hx)
    have hsum0 : 0 ≤ (rest.map timeSlot.totalBlockSize).sum := by
      apply List.sum_nonneg
      intro x hx
      obtain ⟨y, hy, rfl⟩ := List.mem_map.mp hx
      exact hrest y hy
    simp only [List.map_cons, List.sum_cons] at hlt
    simp only [thresholdLoop]
    rw [if_neg (by omega)]
    rw [ih (acc + s.totalBlockSize) (files + s.files.length) hrest (by omega)]
    simp only [List.map_cons, List.sum_cons, Prod.mk.injEq, true_and]
    refine ⟨?_, ?_⟩ <;> omega

lemma le_getLast_time_of_sorted (slots : List timeSlot) (hne : slots ≠ [])
    (hsorted : slots.Pairwise (fun a b => a.time < b.time)) :
    ∀ s ∈ slots, s.time ≤ (slots.getLast hne).time := by
  intro s hs
  have hdec := List.dropLast_append_getLast hne
  rw [← hdec] at hs hsorted
  rcases List.mem_append.mp hs with h | h
  · have := (List.pairwise_append.mp hsorted).2.2 s h (slots.getLast hne)
      (List.mem_singleton_self _)
    exact le_of_lt this
  · rw [List.mem_singleton.mp h]

lemma lt_getLast_time_of_ne (slots : List timeSlot) (hne : slots ≠ [])
    (hsorted : slots.Pairwise (fun a b => a.time < b.time)) :
    ∀ s ∈ slots, s ≠ slots.getLast hne → s.time < (slots.getLast hne).time := by
  intro s hs hneq
  have hdec := List.dropLast_append_getLast hne
  rw [← hdec] at hs hsorted
  rcases List.mem_append.mp hs with h | h
  · exact (List.pairwise_append.mp hsorted).2.2 s h (slots.getLast hne)
      (List.mem_singleton_self _)
  · exact absurd (List.mem_singleton.mp h) hneq

/-- C4 amended: for a non-empty strictly ascending slot list whose summed
block size is below the budget, the budget-variant solver returns the
default cutoff — the last slot's time plus one second — which is strictly
greater than every slot time; but this default is not "delete nothing":
every record of every non-last slot has `modTime` strictly below the
cutoff and is therefore deleted by the delete phase (`modTime < cutoff`). -/
theorem calculateThreshold_default_cutoff (w B : ℤ) (slots : List timeSlot)
    (hne : slots ≠ []) (hw : 0 < w) (hB : 0 < B)
    (hsorted : slots.Pairwise (fun a b => a.time < b.time))
    (hbs : ∀ s ∈ slots, 0 ≤ s.totalBlockSize)
    (hkeys : ∀ s ∈ slots, s.time % w = 0)
    (hrec : ∀ s ∈ slots, ∀ fi ∈ s.files, goTruncate fi.modTime w = s.time)
    (hsum : (slots.map timeSlot.totalBlockSize).sum < B) :
    (calculateThreshold slots B).1 = (slots.getLast hne).time + nsPerSecond ∧
    (∀ s ∈ slots, s.time < (calculateThreshold slots B).1) ∧
    (∀ s ∈ slots, s ≠ slots.getLast hne → ∀ fi ∈ s.files,
      fi.modTime < (calculateThreshold slots B).1) := by
  have hlast : slots.getLast? = some (slots.getLast hne) :=
    List.getLast?_eq_getLast slots hne
  have hval : calculateThreshold slots B =
      ((slots.getLast hne).time + nsPerSecond,
        0 + (slots.map (fun s => s.files.length)).sum,
        0 + (slots.map timeSlot.totalBlockSize).sum) := by
    unfold calculateThreshold
    rw [hlast]
    exact thresholdLoop_no_break B _ slots 0 0 hbs (by omega)
  have hsec : (0 : ℤ) < nsPerSecond := by norm_num [nsPerSecond]
  refine ⟨by rw [hval], ?_, ?_⟩
  · intro s hs
    rw [hval]
    have := le_getLast_time_of_sorted slots hne hsorted s hs
    simp only []
    omega
  · intro s hs hneq fi hfi
    rw [hval]
    simp only []
    have hlt := lt_getLast_time_of_ne slots hne hsorted s hs hneq
    have hsk := hkeys s hs
    have hlk := hkeys (slots.getLast hne) (List.getLast_mem hne)
    have hstep : s.time + w ≤ (slots.getLast hne).time := by
      obtain ⟨a, ha⟩ := Int.dvd_of_emod_eq_zero hsk
      obtain ⟨b, hb⟩ := Int.dvd_of_emod_eq_zero hlk
      rw [ha, hb] at hlt ⊢
      have hab : a < b := lt_of_mul_lt_mul_left hlt (le_of_lt hw)
      have : w * (a + 1) ≤ w * b :=
        mul_le_mul_of_nonneg_left (by omega) (le_of_lt hw)
      linarith [this]
    have htr := hrec s hs fi hfi
    unfold goTruncate at htr
    rw [if_neg (by omega)] at htr
    have hmod := Int.emod_lt_of_pos fi.modTime hw
    have hmod0 := Int.emod_nonneg fi.modTime (by omega : w ≠ 0)
    omega

/-- C4 counterexample: with budget 100 exceeding the summed block size 20
the solver returns the default cutoff 300000000000 + 1 s, yet the scanned
record in the oldest slot has `modTime = 0 < cutoff`, so it is deleted —
the default is not "delete nothing". -/
theorem calculateThreshold_default_not_delete_nothing :
    (0 : ℤ) < 100 ∧
    (c4Slots.map timeSlot.totalBlockSize).sum < 100 ∧
    (calculateThreshold c4Slots 100).1 = 301000000000 ∧
    c4SlotOld ∈ c4Slots ∧
    c4FileOld ∈ c4SlotOld.files ∧
    goTruncate c4FileOld.modTime 300000000000 = c4SlotOld.time ∧
    ¬ (calculateThreshold c4Slots 100).1 ≤ c4FileOld.modTime := by decide

/-- Witness for `calculateThreshold_default_cutoff` on the two C4 slots. -/
theorem calculateThreshold_default_cutoff_witness :
    (calculateThreshold c4Slots 100).1 = c4SlotNew.time + nsPerSecond ∧
    (∀ s ∈ c4Slots, s.time < (calculateThreshold c4Slots 100).1) ∧
    (∀ s ∈ c4Slots, s ≠ c4SlotNew → ∀ fi ∈ s.files,
      fi.modTime < (calculateThreshold c4Slots 100).1) := by
  have h := calculateThreshold_default_cutoff 300000000000 100 c4Slots
    (by decide) (by decide) (by decide) (by decide) (by decide) (by decide)
    (by decide) (by decide)
  have hg : c4Slots.getLast (by decide) = c4SlotNew := by decide
  rw [hg] at h
  exact h

lemma maxSizeLoop_break (M : ℤ) :
    ∀ (slots : List timeSlot) (remaining : ℤ) (dF : ℕ) (dS : ℤ),
      slots ≠ [] →
      remaining - (slots.map timeSlot.totalBlockSize).sum ≤ M →
      ∃ pre s post, slots = pre ++ s :: post ∧
        maxSizeLoop M slots remaining dF dS =
          (some (s.time + nsPerHour),
            dF + ((pre ++ [s]).map (fun t => t.files.length)).sum,
            dS + ((pre ++ [s]).map timeSlot.totalBlockSize).sum) ∧
        remaining - ((pre ++ [s]).map timeSlot.totalBlockSize).sum ≤ M ∧
        (∀ q q' r, pre = q ++ q' :: r →
          M < remaining - ((q ++ [q']).map timeSlot.totalBlockSize).sum) := by
  intro slots
  induction slots with
  | nil => intro _ _ _ hne _; exact absurd rfl hne
  | cons s rest ih =>
    intro remaining dF dS _ hle
    simp only [List.map_cons, List.sum_cons] at hle
    by_cases hbreak : remaining - s.totalBlockSize ≤ M
    · refine ⟨[], s, rest, rfl, ?_, ?_, ?_⟩
      · simp only [maxSizeLoop]
        rw [if_pos hbreak]
        simp
      · simpa using hbreak
      · intro q q' r hq
        cases q <;> simp at hq
    · have hrestne : rest ≠ [] := by
        intro hrest
        rw [hrest] at hle
        simp at hle
        omega
      obtain ⟨pre', s', post', hdec, hloop, hrem, hmin⟩ :=
        ih (remaining - s.totalBlockSize) (dF + s.files.length)
          (dS + s.totalBlockSize) hrestne (by omega)
      refine ⟨s :: pre', s', post', ?_, ?_, ?_, ?_⟩
      · rw [List.cons_append, ← hdec]
      · simp only [maxSizeLoop]
        rw [if_neg hbreak, hloop]
        simp only [List.cons_append, List.map_cons, List.sum_cons,
          List.map_append, List.sum_append, List.map_nil, List.sum_nil,
          Prod.mk.injEq, true_and]
        constructor <;> omega
      · simp only [List.cons_append, List.map_cons, List.sum_cons] at *
        omega
      · intro q q' r hq
        cases q with
        | nil =>
          simp only [List.nil_append, List.cons.injEq] at hq
          rw [← hq.1]
          simp only [List.nil_append, List.map_cons, List.map_nil,
            List.sum_cons, List.sum_nil]
          omega
        | cons a q₂ =>
          simp only [List.cons_append, List.cons.injEq] at hq
          obtain ⟨rfl, hq2⟩ := hq
          have := hmin q₂ q' r hq2
          simp only [List.cons_append, List.map_cons, List.sum_cons] at *
          omega

/-- C5 amended: when the summed block size exceeds the cap `M ≥ 0`, the
absolute-size solver deletes whole slots oldest-first until the remaining
total is within `M` (taking the least such prefix), and the returned cutoff
is the last deleted slot's time plus one *hour* — a fixed constant, not the
configured `TimeWindow`. -/
theorem calculateThresholdForMaxSize_accumulates_oldest (now M : ℤ)
    (slots : List timeSlot) (hM : 0 ≤ M)
    (hgt : M < (slots.map timeSlot.totalBlockSize).sum) :
    ∃ pre s post, slots = pre ++ s :: post ∧
      calculateThresholdForMaxSize now slots M =
        (s.time + nsPerHour,
          ((pre ++ [s]).map (fun t => t.files.length)).sum,
          ((pre ++ [s]).map timeSlot.totalBlockSize).sum) ∧
      (slots.map timeSlot.totalBlockSize).sum -
          ((pre ++ [s]).map timeSlot.totalBlockSize).sum ≤ M ∧
      (∀ q q' r, pre = q ++ q' :: r →
        M < (slots.map timeSlot.totalBlockSize).sum -
          ((q ++ [q']).map timeSlot.totalBlockSize).sum) := by
  have hne : slots ≠ [] := by
    intro h
    rw [h] at hgt
    simp at hgt
    omega
  obtain ⟨pre, s, post, hdec, hloop, hrem, hmin⟩ :=
    maxSizeLoop_break M slots ((slots.map timeSlot.totalBlockSize).sum) 0 0
      hne (by omega)
  refine ⟨pre, s, post, hdec, ?_, hrem, hmin⟩
  unfold calculateThresholdForMaxSize
  rw [if_neg (by omega)]
  rw [hloop]
  dsimp only
  simp only [zero_add]

/-- C5 / S4-style witness: three slots of 10 block bytes each with cap 15:
the two oldest slots are deleted, the cutoff is the second slot's time plus
one hour. -/
theorem calculateThresholdForMaxSize_accumulates_oldest_witness :
    ∃ pre s post,
      [c4SlotOld, c4SlotNew, c5SlotThird] = pre ++ s :: post ∧
      calculateThresholdForMaxSize 0 [c4SlotOld, c4SlotNew, c5SlotThird] 15 =
        (s.time + nsPerHour,
          ((pre ++ [s]).map (fun t => t.files.length)).sum,
          ((pre ++ [s]).map timeSlot.totalBlockSize).sum) ∧
      (([c4SlotOld, c4SlotNew, c5SlotThird].map timeSlot.totalBlockSize).sum -
          ((pre ++ [s]).map timeSlot.totalBlockSize).sum ≤ 15) ∧
      (∀ q q' r, pre = q ++ q' :: r →
        (15 : ℤ) < ([c4SlotOld, c4SlotNew, c5SlotThird].map
            timeSlot.totalBlockSize).sum -
          ((q ++ [q']).map timeSlot.totalBlockSize).sum) :=
  calculateThresholdForMaxSize_accumulates_oldest 0 15
    [c4SlotOld, c4SlotNew, c5SlotThird] (by decide) (by decide)

/-- C5 counterexample: with a single oversized slot and a configured
5-minute TimeWindow the returned cutoff is the slot time plus one hour,
not the slot time plus the window width the claim specifies. -/
theorem calculateThresholdForMaxSize_hour_counterexample :
    (calculateThresholdForMaxSize 0 [c4SlotOld] 5).1 =
      c4SlotOld.time + nsPerHour ∧
    c5Config.TimeWindow = 300000000000 ∧
    (calculateThresholdForMaxSize 0 [c4SlotOld] 5).1 ≠
      c4SlotOld.time + c5Config.TimeWindow := by decide

lemma bubblePass_perm : ∀ l : List timeSlot, List.Perm (bubblePass l) l
  | [] => by simp [bubblePass]
  | [a] => by simp [bubblePass]
  | a :: b :: rest => by
    simp only [bubblePass]
    split_ifs with h
    · exact ((bubblePass_perm (a :: rest)).cons b).trans (List.Perm.swap a b rest)
    · exact (bubblePass_perm (b :: rest)).cons a

lemma bubblePass_last : ∀ l : List timeSlot, l ≠ [] →
    ∃ (l' : List timeSlot) (m : timeSlot),
      bubblePass l = l' ++ [m] ∧ ∀ x ∈ l, x.time ≤ m.time
  | [], h => absurd rfl h
  | [a], _ => ⟨[], a, by simp [bubblePass], by simp⟩
  | a :: b :: rest, _ => by
    by_cases h : b.time < a.time
    · obtain ⟨l₂, m, heq, hmax⟩ :=
        bubblePass_last (a :: rest) (List.cons_ne_nil a rest)
      refine ⟨b :: l₂, m, ?_, ?_⟩
      · simp only [bubblePass, if_pos h, heq, List.cons_append]
      · intro x hx
        rcases List.mem_cons.mp hx with rfl | hx
        · exact hmax x (List.mem_cons_self x rest)
        · rcases List.mem_cons.mp hx with rfl | hx
          · exact le_trans (le_of_lt h) (hmax _ (List.mem_cons_self _ rest))
          · exact hmax x (List.mem_cons_of_mem _ hx)
    · obtain ⟨l₂, m, heq, hmax⟩ :=
        bubblePass_last (b :: rest) (List.cons_ne_nil b rest)
      refine ⟨a :: l₂, m, ?_, ?_⟩
      · simp only [bubblePass, if_neg h, heq, List.cons_append]
      · intro x hx
        rcases List.mem_cons.mp hx with rfl | hx
        · exact le_trans (not_lt.mp h) (hmax _ (List.mem_cons_self _ rest))
        · exact hmax x hx

lemma bubblePass_append_max : ∀ (l : List timeSlot) (m : timeSlot),
    (∀ x ∈ l, x.time ≤ m.time) → bubblePass (l ++ [m]) = bubblePass l ++ [m]
  | [], m, _ => by simp [bubblePass]
  | [a], m, h => by
    simp only [List.cons_append, List.nil_append, bubblePass]
    rw [if_neg (not_lt.mpr (h a (List.mem_singleton_self a)))]
  | a :: b :: rest, m, h => by
    have hsub : ∀ x ∈ a :: rest, x.time ≤ m.time := by
      intro x hx
      rcases List.mem_cons.mp hx with rfl | hx
      · exact h x (List.mem_cons_self _ _)
      · exact h x (List.mem_cons_of_mem _ (List.mem_cons_of_mem _ hx))
    have hsub' : ∀ x ∈ b :: rest, x.time ≤ m.time := fun x hx =>
      h x (List.mem_cons_of_mem _ hx)
    by_cases hab : b.time < a.time
    · have hrec := bubblePass_append_max (a :: rest) m hsub
      simp only [List.cons_append] at hrec ⊢
      simp only [bubblePass, if_pos hab]
      rw [hrec, List.cons_append]
    · have hrec := bubblePass_append_max (b :: rest) m hsub'
      simp only [List.cons_append] at hrec ⊢
      simp only [bubblePass, if_neg hab]
      rw [hrec, List.cons_append]

lemma bubblePass_iter_nil : ∀ n : ℕ, bubblePass^[n] ([] : List timeSlot) = []
  | 0 => rfl
  | n + 1 => by
    rw [Function.iterate_succ_apply,
      show bubblePass [] = [] from by simp [bubblePass]]
    exact bubblePass_iter_nil n

lemma bubblePass_iter_perm (n : ℕ) :
    ∀ l : List timeSlot, List.Perm (bubblePass^[n] l) l := by
  induction n with
  | zero => intro l; exact List.Perm.refl l
  | succ n ih =>
    intro l
    rw [Function.iterate_succ_apply]
    exact (ih (bubblePass l)).trans (bubblePass_perm l)

lemma bubblePass_iter_append_max (k : ℕ) :
    ∀ (l : List timeSlot) (m : timeSlot), (∀ x ∈ l, x.time ≤ m.time) →
      bubblePass^[k] (l ++ [m]) = (bubblePass^[k] l) ++ [m] := by
  induction k with
  | zero => intro l m _; rfl
  | succ k ih =>
    intro l m h
    rw [Function.iterate_succ_apply, bubblePass_append_max l m h,
      Function.iterate_succ_apply]
    exact ih (bubblePass l) m (fun x hx => h x ((bubblePass_perm l).subset hx))

lemma bubblePass_iter_sorted :
    ∀ (n : ℕ) (l : List timeSlot), l.length ≤ n + 1 →
      (bubblePass^[n] l).Pairwise (fun a b => a.time ≤ b.time) := by
  intro n
  induction n with
  | zero =>
    intro l hl
    match l with
    | [] => exact List.Pairwise.nil
    | [a] => exact List.pairwise_singleton _ a
    | a :: b :: rest => simp at hl
  | succ n ih =>
    intro l hl
    rcases eq_or_ne l [] with rfl | hne
    · rw [bubblePass_iter_nil]
      exact List.Pairwise.nil
    obtain ⟨l', m, heq, hmax⟩ := bubblePass_last l hne
    have hperm : List.Perm (l' ++ [m]) l := heq ▸ bubblePass_perm l
    have hmax' : ∀ x ∈ l', x.time ≤ m.time := fun x hx =>
      hmax x (hperm.subset (List.mem_append_left _ hx))
    rw [Function.iterate_succ_apply, heq, bubblePass_iter_append_max n l' m hmax']
    have hlen : l'.length ≤ n + 1 := by
      have := hperm.length_eq
      simp only [List.length_append, List.length_singleton] at this
      omega
    rw [List.pairwise_append]
    refine ⟨ih l' hlen, List.pairwise_singleton _ m, ?_⟩
    intro x hx y hy
    rw [List.mem_singleton] at hy
    subst hy
    exact hmax' x ((bubblePass_iter_perm n l').subset hx)

lemma sortTimeSlots_sorted (l : List timeSlot) :
    (sortTimeSlots l).Pairwise (fun a b => a.time ≤ b.time) := by
  unfold sortTimeSlots
  exact bubblePass_iter_sorted (l.length - 1) l (by omega)

lemma sortTimeSlots_perm (l : List timeSlot) :
    List.Perm (sortTimeSlots l) l :=
  bubblePass_iter_perm (l.length - 1) l

lemma addFile_keys_preserved (w : ℤ) (H : List timeSlot) (fi : fileInfo)
    (h : ∀ s ∈ H, ∀ f ∈ s.files, goTruncate f.modTime w = s.time) :
    ∀ s ∈ addFile w H fi, ∀ f ∈ s.files, goTruncate f.modTime w = s.time := by
  intro s hs f hf
  simp only [addFile] at hs
  split_ifs at hs with hex
  · obtain ⟨s₀, hs₀, rfl⟩ := List.mem_map.mp hs
    by_cases ht : s₀.time = goTruncate fi.modTime w
    · rw [if_pos ht] at hf ⊢
      dsimp only at hf ⊢
      rcases List.mem_append.mp hf with hf | hf
      · exact h s₀ hs₀ f hf
      · rw [List.mem_singleton] at hf
        subst hf
        exact ht.symm
    · rw [if_neg ht] at hf ⊢
      exact h s₀ hs₀ f hf
  · rcases List.mem_append.mp hs with hs | hs
    · exact h s hs f hf
    · rw [List.mem_singleton] at hs
      subst hs
      dsimp only at hf ⊢
      rw [List.mem_singleton] at hf
      subst hf
      rfl

lemma addFile_totals_preserved (w : ℤ) (H : List timeSlot) (fi : fileInfo)
    (h : ∀ s ∈ H, s.totalSize = (s.files.map fileInfo.size).sum ∧
      s.totalBlockSize = (s.files.map fileInfo.blockSize).sum) :
    ∀ s ∈ addFile w H fi,
      s.totalSize = (s.files.map fileInfo.size).sum ∧
      s.totalBlockSize = (s.files.map fileInfo.blockSize).sum := by
  intro s hs
  simp only [addFile] at hs
  split_ifs at hs with hex
  · obtain ⟨s₀, hs₀, rfl⟩ := List.mem_map.mp hs
    by_cases ht : s₀.time = goTruncate fi.modTime w
    · rw [if_pos ht]
      dsimp only
      rw [List.map_append, List.sum_append, List.map_append, List.sum_append]
      have := h s₀ hs₀
      simp only [List.map_cons, List.map_nil, List.sum_cons, List.sum_nil]
      omega
    · rw [if_neg ht]
      exact h s₀ hs₀
  · rcases List.mem_append.mp hs with hs | hs
    · exact h s hs
    · rw [List.mem_singleton] at hs
      subst hs
      dsimp only
      simp

lemma addFile_map_time_of_mem (w : ℤ) (H : List timeSlot) (fi : fileInfo)
    (hex : (H.any fun s => s.time = goTruncate fi.modTime w) = true) :
    (addFile w H fi).map timeSlot.time = H.map timeSlot.time := by
  simp only [addFile]
  rw [if_pos hex, List.map_map]
  apply List.map_congr_left
  intro s _
  by_cases ht : s.time = goTruncate fi.modTime w
  · simp only [Function.comp_apply, if_pos ht]
  · simp only [Function.comp_apply, if_neg ht]

lemma addFile_map_time_of_not_mem (w : ℤ) (H : List timeSlot) (fi : fileInfo)
    (hex : ¬ (H.any fun s => s.time = goTruncate fi.modTime w) = true) :
    (addFile w H fi).map timeSlot.time =
      H.map timeSlot.time ++ [goTruncate fi.modTime w] := by
  simp only [addFile]
  rw [if_neg hex]
  simp

lemma addFile_times_nodup (w : ℤ) (H : List timeSlot) (fi : fileInfo)
    (h : (H.map timeSlot.time).Nodup) :
    ((addFile w H fi).map timeSlot.time).Nodup := by
  by_cases hex : (H.any fun s => s.time = goTruncate fi.modTime w) = true
  · rw [addFile_map_time_of_mem w H fi hex]
    exact h
  · rw [addFile_map_time_of_not_mem w H fi hex]
    refine List.nodup_append.mpr ⟨h, List.nodup_singleton _, ?_⟩
    intro a ha hb
    rw [List.mem_singleton] at hb
    subst hb
    obtain ⟨s, hsH, hst⟩ := List.mem_map.mp ha
    apply hex
    simp only [List.any_eq_true, decide_eq_true_eq]
    exact ⟨s, hsH, hst⟩

lemma mem_files_addFile (w : ℤ) (H : List timeSlot) (fi f' : fileInfo) :
    (∃ s ∈ addFile w H fi, f' ∈ s.files) ↔
      f' = fi ∨ ∃ s ∈ H, f' ∈ s.files := by
  constructor
  · rintro ⟨s, hs, hf⟩
    simp only [addFile] at hs
    split_ifs at hs with hex
    · obtain ⟨s₀, hs₀, rfl⟩ := List.mem_map.mp hs
      by_cases ht : s₀.time = goTruncate fi.modTime w
      · rw [if_pos ht] at hf
        dsimp only at hf
        rcases List.mem_append.mp hf with hf | hf
        · exact Or.inr ⟨s₀, hs₀, hf⟩
        · rw [List.mem_singleton] at hf
          exact Or.inl hf
      · rw [if_neg ht] at hf
        exact Or.inr ⟨s₀, hs₀, hf⟩
    · rcases List.mem_append.mp hs with hs | hs
      · exact Or.inr ⟨s, hs, hf⟩
      · rw [List.mem_singleton] at hs
        subst hs
        dsimp only at hf
        rw [List.mem_singleton] at hf
        exact Or.inl hf
  · intro hcase
    simp only [addFile]
    split_ifs with hex
    · rcases hcase with rfl | ⟨s, hsH, hf⟩
      · simp only [List.any_eq_true, decide_eq_true_eq] at hex
        obtain ⟨s₀, hs₀, ht⟩ := hex
        refine ⟨_, List.mem_map.mpr ⟨s₀, hs₀, rfl⟩, ?_⟩
        rw [if_pos ht]
        dsimp only
        simp
      · refine ⟨_, List.mem_map.mpr ⟨s, hsH, rfl⟩, ?_⟩
        by_cases ht : s.time = goTruncate fi.modTime w
        · rw [if_pos ht]
          dsimp only
          exact List.mem_append_left _ hf
        · rw [if_neg ht]
          exact hf
    · rcases hcase with rfl | ⟨s, hsH, hf⟩
      · exact ⟨_, List.mem_append_right _ (List.mem_singleton_self _), by simp⟩
      · exact ⟨s, List.mem_append_left _ hsH, hf⟩

lemma foldl_addFile_keys (w : ℤ) :
    ∀ (fis : List fileInfo) (H : List timeSlot),
      (∀ s ∈ H, ∀ f ∈ s.files, goTruncate f.modTime w = s.time) →
      ∀ s ∈ fis.foldl (addFile w) H, ∀ f ∈ s.files,
        goTruncate f.modTime w = s.time := by
  intro fis
  induction fis with
  | nil => intro H h; simpa using h
  | cons fi rest ih =>
    intro H h
    simp only [List.foldl_cons]
    exact ih (addFile w H fi) (addFile_keys_preserved w H fi h)

lemma foldl_addFile_totals (w : ℤ) :
    ∀ (fis : List fileInfo) (H : List timeSlot),
      (∀ s ∈ H, s.totalSize = (s.files.map fileInfo.size).sum ∧
        s.totalBlockSize = (s.files.map fileInfo.blockSize).sum) →
      ∀ s ∈ fis.foldl (addFile w) H,
        s.totalSize = (s.files.map fileInfo.size).sum ∧
        s.totalBlockSize = (s.files.map fileInfo.blockSize).sum := by
  intro fis
  induction fis with
  | nil => intro H h; simpa using h
  | cons fi rest ih =>
    intro H h
    simp only [List.foldl_cons]
    exact ih (addFile w H fi) (addFile_totals_preserved w H fi h)

lemma foldl_addFile_nodup (w : ℤ) :
    ∀ (fis : List fileInfo) (H : List timeSlot),
      (H.map timeSlot.time).Nodup →
      ((fis.foldl (addFile w) H).map timeSlot.time).Nodup := by
  intro fis
  induction fis with
  | nil => intro H h; simpa using h
  | cons fi rest ih =>
    intro H h
    simp only [List.foldl_cons]
    exact ih (addFile w H fi) (addFile_times_nodup w H fi h)

lemma foldl_addFile_mem (w : ℤ) :
    ∀ (fis : List fileInfo) (H : List timeSlot) (f' : fileInfo),
      (∃ s ∈ fis.foldl (addFile w) H, f' ∈ s.files) ↔
        (f' ∈ fis ∨ ∃ s ∈ H, f' ∈ s.files) := by
  intro fis
  induction fis with
  | nil => intro H f'; simp
  | cons fi rest ih =>
    intro H f'
    rw [List.foldl_cons, ih (addFile w H fi) f', mem_files_addFile,
      List.mem_cons]
    tauto

/-- C7: after any sequence of `addFile` calls with window `w > 0`, every
added record lies in exactly one slot of `getTimeSlots`, that slot's key is
the record's modification time truncated to `w`, each slot's totals are the
sums over its member records, and `getTimeSlots` returns the slots sorted
ascending by slot time, regardless of insertion order. -/
theorem histogram_invariants (w : ℤ) (fis : List fileInfo) (hw : 0 < w) :
    (∀ fi ∈ fis, ∃! s, s ∈ getTimeSlots w fis ∧ fi ∈ s.files) ∧
    (∀ s ∈ getTimeSlots w fis, ∀ fi ∈ s.files,
      s.time = goTruncate fi.modTime w) ∧
    (∀ s ∈ getTimeSlots w fis,
      s.totalSize = (s.files.map fileInfo.size).sum ∧
      s.totalBlockSize = (s.files.map fileInfo.blockSize).sum) ∧
    (getTimeSlots w fis).Pairwise (fun a b => a.time ≤ b.time) := by
  have hperm := sortTimeSlots_perm (buildHistogram w fis)
  have hmem : ∀ s, s ∈ getTimeSlots w fis ↔ s ∈ buildHistogram w fis :=
    fun s => hperm.mem_iff
  have hkeys : ∀ s ∈ buildHistogram w fis, ∀ f ∈ s.files,
      goTruncate f.modTime w = s.time :=
    foldl_addFile_keys w fis [] (by simp)
  have hnodup : ((getTimeSlots w fis).map timeSlot.time).Nodup :=
    (hperm.map timeSlot.time).nodup_iff.mpr
      (foldl_addFile_nodup w fis [] (by simp))
  refine ⟨?_, ?_, ?_, sortTimeSlots_sorted _⟩
  · intro fi hfi
    have : ∃ s ∈ buildHistogram w fis, fi ∈ s.files := by
      unfold buildHistogram
      rw [foldl_addFile_mem w fis [] fi]
      exact Or.inl hfi
    obtain ⟨s, hsH, hfs⟩ := this
    refine ⟨s, ⟨(hmem s).mpr hsH, hfs⟩, ?_⟩
    rintro s' ⟨hs', hfs'⟩
    have h1 : s'.time = goTruncate fi.modTime w :=
      (hkeys s' ((hmem s').mp hs') fi hfs').symm
    have h2 : s.time = goTruncate fi.modTime w := (hkeys s hsH fi hfs).symm
    exact List.inj_on_of_nodup_map hnodup hs' ((hmem s).mpr hsH)
      (h1.trans h2.symm)
  · intro s hs fi hfi
    exact (hkeys s ((hmem s).mp hs) fi hfi).symm
  · intro s hs
    exact foldl_addFile_totals w fis [] (by simp) s ((hmem s).mp hs)

/-- Witness for `histogram_invariants` at a 5-minute window over
`c7Files`. -/
theorem histogram_invariants_witness :
    (∀ fi ∈ c7Files, ∃! s, s ∈ getTimeSlots 300000000000 c7Files ∧
      fi ∈ s.files) ∧
    (∀ s ∈ getTimeSlots 300000000000 c7Files, ∀ fi ∈ s.files,
      s.time = goTruncate fi.modTime 300000000000) ∧
    (∀ s ∈ getTimeSlots 300000000000 c7Files,
      s.totalSize = (s.files.map fileInfo.size).sum ∧
      s.totalBlockSize = (s.files.map fileInfo.blockSize).sum) ∧
    (getTimeSlots 300000000000 c7Files).Pairwise
      (fun a b => a.time ≤ b.time) :=
  histogram_invariants 300000000000 c7Files (by decide)

end GoBackupCleaner
